import Mathlib

/-!
Verification development for the mai-lang compiler front end
(lexer `src/lexer.rs`, token vocabulary `src/token.rs`, recursive-descent
parser `src/parser.rs`, AST-to-LLVM-IR lowering `src/llvm_translator.rs`).

The Rust code is shallowly embedded: tokens, AST nodes and IR values are
inductive types; the lexer and parser thread an explicit cursor state; the
lowering engine threads an explicit builder/module state.  Rust `panic!`
and `Option::unwrap` failures are modelled as a distinguished `panic`
error, `Result::Err` diagnostics as a `diag` error.
-/

namespace Mai

/-- Token (`src/token.rs`).  The variants through `EOF` are exactly the ones
`token.rs` declares.  The trailing six variants (`Fun`, `For`, `Return`,
`While`, `Or`, `And`) do not appear in `token.rs`, but `parser.rs` pattern
matches on `Token::Fun`, `Token::For`, `Token::Return`, `Token::While`,
`Token::Or` and `Token::And`; they are included so the parser embedding is
expressible.  The lexer never produces any of them. -/
inductive Token where
  | Eq | Neq | Eqq | BangEq | Greater | Less | Geq | Leq
  | Plus | Minus | Times | Div
  | Bang
  | LParen | RParen | Comma | Semicolon | LBrace | RBrace
  | If | Else | True | False
  | Number (text : String)
  | Ident (text : String)
  | Var | Wagmi
  | EOF
  | Fun | For | Return | While | Or | And
  deriving DecidableEq, Repr

/-- `LexingError` (`src/lexer.rs` lines 10-14): `UnknownToken` carries the
offending character's text (Rust: `unknown.to_string()`). -/
inductive LexingError where
  | UnknownToken (text : String)
  deriving DecidableEq, Repr

/-- Lexer state: the not-yet-consumed characters of the `Peekable<Chars>`
iterator, and the byte/char index `curr` (`TokenLexer.curr`). -/
structure LexState where
  chars : List Char
  curr : Nat
  deriving DecidableEq, Repr

/-- Rust `char::is_whitespace`: the Unicode White_Space code points. -/
def rustIsWhitespace (c : Char) : Bool :=
  let n := c.toNat
  n == 32 || (9 ≤ n && n ≤ 13) || n == 0x85 || n == 0xA0 || n == 0x1680 ||
    (0x2000 ≤ n && n ≤ 0x200A) || n == 0x2028 || n == 0x2029 ||
    n == 0x202F || n == 0x205F || n == 0x3000

/-- Rust `char::is_ascii_hexdigit`: 0-9, a-f, A-F. -/
def isAsciiHexDigitChar (c : Char) : Bool :=
  let n := c.toNat
  (48 ≤ n && n ≤ 57) || (97 ≤ n && n ≤ 102) || (65 ≤ n && n ≤ 70)

/-- ASCII fragment of Rust `char::is_alphanumeric` (the full predicate is the
Unicode Alphabetic property plus Nd, Nl, No; all inputs the claims concern are
ASCII, where the two agree: 0-9, a-z, A-Z). -/
def isAlphanumericChar (c : Char) : Bool :=
  let n := c.toNat
  (48 ≤ n && n ≤ 57) || (97 ≤ n && n ≤ 122) || (65 ≤ n && n ≤ 90)

/-- The `'0'..='9' | '.'` arm guard of `TokenLexer::lex` (`lexer.rs` line 80). -/
def isNumStartChar (c : Char) : Bool :=
  (48 ≤ c.toNat && c.toNat ≤ 57) || c.toNat == 46

/-- Continuation test of the number-scanning loop (`lexer.rs` line 86):
continue while the peeked char is `.` or an ASCII hex digit. -/
def isNumContChar (c : Char) : Bool :=
  c.toNat == 46 || isAsciiHexDigitChar c

/-- The `'a'..='z' | 'A'..='Z' | '_'` arm guard (`lexer.rs` line 95). -/
def isIdentStartChar (c : Char) : Bool :=
  (97 ≤ c.toNat && c.toNat ≤ 122) || (65 ≤ c.toNat && c.toNat ≤ 90) ||
    c.toNat == 95

/-- Continuation test of the identifier-scanning loop (`lexer.rs` line 101):
continue while the peeked char is `_` or alphanumeric. -/
def isIdentContChar (c : Char) : Bool :=
  c.toNat == 95 || isAlphanumericChar c

/-- The leading whitespace-skipping loop of `lex` (`lexer.rs` lines 49-62):
returns the remaining characters and how many were skipped. -/
def skipWs : List Char → List Char × Nat
  | [] => ([], 0)
  | c :: cs =>
    if rustIsWhitespace c then
      let (r, n) := skipWs cs
      (r, n + 1)
    else (c :: cs, 0)

/-- The number/identifier continuation loop (`lexer.rs` lines 81-91 and
96-106): `none` models the `None => return Ok(Token::EOF)` arm (input
exhausted while peeking); otherwise the number of characters consumed and
the remaining characters at the break. -/
def scanLoop (cont : Char → Bool) : List Char → Option (Nat × List Char)
  | [] => none
  | c :: cs =>
    if cont c then
      match scanLoop cont cs with
      | none => none
      | some (n, rem) => some (n + 1, rem)
    else some (0, c :: cs)

/-- The keyword table of `lex` (`lexer.rs` lines 108-116): exactly `var`,
`if`, `else`, `false`, `true` and `wagmi` map to keyword tokens; every other
scanned spelling becomes `Ident` with that spelling. -/
def keywordOf (text : String) : Token :=
  if text = "var" then .Var
  else if text = "if" then .If
  else if text = "else" then .Else
  else if text = "false" then .False
  else if text = "true" then .True
  else if text = "wagmi" then .Wagmi
  else .Ident text

/-- The `peek_next_otherwise!` macro (`lexer.rs` lines 124-135): if the next
character equals `req` (char code `reqCode`), consume it and produce
`twoTok`; otherwise produce `oneTok` without consuming. -/
def peekNextOtherwise (reqCode : Nat) (twoTok oneTok : Token)
    (rest : List Char) (curr : Nat) : Token × LexState :=
  match rest with
  | c :: r => if c.toNat == reqCode then (twoTok, ⟨r, curr + 1⟩) else (oneTok, ⟨c :: r, curr⟩)
  | [] => (oneTok, ⟨[], curr⟩)

/-- `TokenLexer::lex` (`lexer.rs` lines 44-151).  Single-character dispatch
is written with the character codes of the literals the source matches on:
40 `(`, 41 `)`, 44 `,`, 59 `;`, 123 left brace, 125 right brace, 43 `+`,
45 `-`, 42 `*`, 47 `/`, 33 `!`, 61 `=`, 60 `<`, 62 `>`.  When the input is
exhausted inside the number/identifier loop, the source early-returns
`Ok(Token::EOF)` without writing back `curr`, so the returned state keeps
the entry value of `curr`. -/
def lexOne (st : LexState) : Except LexingError (Token × LexState) :=
  let (cs, skipped) := skipWs st.chars
  let curr0 := st.curr + skipped
  match cs with
  | [] => .ok (.EOF, ⟨[], curr0⟩)
  | c :: rest =>
    let curr := curr0 + 1
    if c.toNat == 40 then .ok (.LParen, ⟨rest, curr⟩)
    else if c.toNat == 41 then .ok (.RParen, ⟨rest, curr⟩)
    else if c.toNat == 44 then .ok (.Comma, ⟨rest, curr⟩)
    else if c.toNat == 59 then .ok (.Semicolon, ⟨rest, curr⟩)
    else if c.toNat == 123 then .ok (.LBrace, ⟨rest, curr⟩)
    else if c.toNat == 125 then .ok (.RBrace, ⟨rest, curr⟩)
    else if isNumStartChar c then
      match scanLoop isNumContChar rest with
      | none => .ok (.EOF, ⟨[], st.curr⟩)
      | some (n, rem) => .ok (.Number (String.mk (c :: rest.take n)), ⟨rem, curr + n⟩)
    else if isIdentStartChar c then
      match scanLoop isIdentContChar rest with
      | none => .ok (.EOF, ⟨[], st.curr⟩)
      | some (n, rem) => .ok (keywordOf (String.mk (c :: rest.take n)), ⟨rem, curr + n⟩)
    else if c.toNat == 43 then .ok (.Plus, ⟨rest, curr⟩)
    else if c.toNat == 45 then .ok (.Minus, ⟨rest, curr⟩)
    else if c.toNat == 42 then .ok (.Times, ⟨rest, curr⟩)
    else if c.toNat == 47 then .ok (.Div, ⟨rest, curr⟩)
    else if c.toNat == 33 then .ok (peekNextOtherwise 61 .Neq .Bang rest curr)
    else if c.toNat == 61 then .ok (peekNextOtherwise 61 .Eqq .Eq rest curr)
    else if c.toNat == 60 then .ok (peekNextOtherwise 61 .Leq .Less rest curr)
    else if c.toNat == 62 then .ok (peekNextOtherwise 61 .Geq .Greater rest curr)
    else .error (.UnknownToken (String.mk [c]))

/-- The `Iterator` impl for `TokenLexer` (`lexer.rs` lines 24-33):
`Ok(EOF)` and `Err(_)` both end the stream. -/
def lexNext (st : LexState) : Option (Token × LexState) :=
  match lexOne st with
  | .ok (.EOF, _) => none
  | .error _ => none
  | .ok (t, st') => some (t, st')

/-- Driving the token iterator to completion, as
`TokenLexer::new(input).collect::<Vec<Token>>()` does in `main.rs`.
The fuel argument only bounds iteration; every yielded token consumes at
least one character, so `length + 1` fuel is always enough. -/
def collectTokens : Nat → LexState → List Token
  | 0, _ => []
  | n + 1, st =>
    match lexNext st with
    | none => []
    | some (t, st') => t :: collectTokens n st'

/-- The token list the lexer yields for an input string. -/
def lexAll (s : String) : List Token :=
  collectTokens (s.length + 1) ⟨s.data, 0⟩

end Mai

namespace Mai

/-- Expression AST (`src/parser.rs` lines 3-37).  `Box` indirection is
dropped; payload order follows the struct fields. -/
inductive Expr where
  | BinaryExpr (op : Token) (left : Expr) (right : Expr)
  | UnaryExpr (op : Token) (right : Expr)
  | Logical (op : Token) (left : Expr) (right : Expr)
  | Grouping (expr : Expr)
  | Literal (value : String)
  | Assign (name : Token) (value : Expr)
  | Variable (name : Token)
  | Call (callee : Expr) (paren : Token) (args : List Expr)
  deriving Repr

/-- Statement AST (`src/parser.rs` lines 39-66). -/
inductive Stmt where
  | Block (stmts : List Stmt)
  | Expr (e : Expr)
  | Print (e : Expr)
  | Return (keyword : Token) (value : Option Expr)
  | Function (name : Token) (params : List Token) (body : List Stmt)
  | If (cond : Expr) (then_branch : Stmt) (else_branch : Option Stmt)
  | While (condition : Expr) (body : Stmt)
  | Var (name : Token) (initializer : Expr)
  deriving Repr

def strTrue : String := "true"
def strFalse : String := "false"

namespace Parser

def panicCannotMatch : String := "cannot match"
def panicInvalidAssignment : String := "invalid assignment"
def panicUnwrapNone : String := "called Option unwrap on a None value"
def outOfFuel : String := "fuel exhausted"

/-- Parser cursor (`Parser { tokens, current }`, `parser.rs` lines 68-72). -/
structure PState where
  tokens : List Token
  current : Nat
  deriving DecidableEq, Repr

/-- `Parser::peek` (`parser.rs` lines 418-423): the token at `current`,
`EOF` past the end. -/
def peek (p : PState) : Token := p.tokens.getD p.current .EOF

/-- `Parser::previous` (`parser.rs` lines 412-417).  At `current = 0` the
Rust `self.current - 1` underflows `usize`; `tokens.get` of the wrapped
index is `None`, so `EOF` is returned. -/
def previous (p : PState) : Token :=
  match p.current with
  | 0 => .EOF
  | n + 1 => p.tokens.getD n .EOF

/-- `Parser::advance` (`parser.rs` lines 405-408). -/
def advance (p : PState) : PState := { p with current := p.current + 1 }

/-- `Parser::is_at_end` (`parser.rs` lines 409-411). -/
def isAtEnd (p : PState) : Bool := peek p == .EOF

/-- `Parser::check` (`parser.rs` lines 393-398). -/
def check (p : PState) (tok : Token) : Bool :=
  if isAtEnd p then false else peek p == tok

/-- `Parser::check_match` (`parser.rs` lines 384-392): advance past the
first listed token that matches; the state is unchanged on `false`. -/
def checkMatch (p : PState) : List Token → Bool × PState
  | [] => (false, p)
  | t :: ts => if check p t then (true, advance p) else checkMatch p ts

/-- `Parser::consume` (`parser.rs` lines 399-404): advance only when the
expected token is present, then return `previous` — a missing token is
silently tolerated. -/
def consume (p : PState) (tok : Token) : Token × PState :=
  let p' := if check p tok then advance p else p
  (previous p', p')

/-- `Parser::consume_identifier` (`parser.rs` lines 116-124): panics
("cannot match") when the current token is not an `Ident`. -/
def consumeIdentifier (p : PState) : Except String (Token × PState) :=
  match peek p with
  | .Ident _ => let p' := advance p; .ok (previous p', p')
  | _ => .error panicCannotMatch

/-- The pure tail of `Parser::for_statement` (`parser.rs` lines 182-196):
wrap the increment behind the body, overwrite a present condition with the
constant `true` literal, unwrap the condition (a Rust panic when absent,
i.e. for a `for (init;;inc)` form), build the `While`, and hoist a present
initializer into an enclosing block. -/
def assembleFor (initializer : Option Stmt) (cond0 : Option Expr)
    (increment : Option Expr) (body0 : Stmt) : Except String Stmt :=
  let body1 := match increment with
    | some inc => Stmt.Block [body0, Stmt.Expr inc]
    | none => body0
  let cond1 : Option Expr := match cond0 with
    | some _ => some (Expr.Literal strTrue)
    | none => none
  match cond1 with
  | none => .error panicUnwrapNone
  | some c =>
    let body2 := Stmt.While c body1
    match initializer with
    | some ini => .ok (Stmt.Block [ini, body2])
    | none => .ok body2

mutual

/-- `Parser::declaration` (`parser.rs` lines 92-100). -/
def declaration : Nat → PState → Except String (Stmt × PState)
  | 0, _ => .error outOfFuel
  | n + 1, p =>
    let (m, p) := checkMatch p [.Fun]
    if m then function_declaration n p
    else
      let (m2, p) := checkMatch p [.Var]
      if m2 then variable_declaration n p
      else statement n p

/-- `Parser::function_declaration` (`parser.rs` lines 101-115). -/
def function_declaration : Nat → PState → Except String (Stmt × PState)
  | 0, _ => .error outOfFuel
  | n + 1, p =>
    match consumeIdentifier p with
    | .error e => .error e
    | .ok (name, p) =>
      let (_, p) := consume p .LParen
      let (m, p) := checkMatch p [.RParen]
      match (if m then .ok (([] : List Token), p) else
        match consumeIdentifier p with
        | .error e => .error e
        | .ok (t, p) => param_loop n [t] p : Except String (List Token × PState)) with
      | .error e => .error e
      | .ok (params, p) =>
        let (_, p) := consume p .RParen
        let (_, p) := consume p .LBrace
        match block n p with
        | .error e => .error e
        | .ok (body, p) => .ok (.Function name params body, p)

/-- The parameter `while check_match(Comma)` loop of
`function_declaration` (`parser.rs` lines 107-109). -/
def param_loop : Nat → List Token → PState → Except String (List Token × PState)
  | 0, _, _ => .error outOfFuel
  | n + 1, acc, p =>
    let (m, p) := checkMatch p [.Comma]
    if m then
      match consumeIdentifier p with
      | .error e => .error e
      | .ok (t, p) => param_loop n (acc ++ [t]) p
    else .ok (acc, p)

/-- `Parser::variable_declaration` (`parser.rs` lines 125-139). -/
def variable_declaration : Nat → PState → Except String (Stmt × PState)
  | 0, _ => .error outOfFuel
  | n + 1, p =>
    match peek p with
    | .Ident _ =>
      let p := advance p
      let name := previous p
      let (m, p) := checkMatch p [.Eq]
      match (if m then expression n p else .ok (.Literal strFalse, p) :
          Except String (Expr × PState)) with
      | .error e => .error e
      | .ok (initializer, p) =>
        let (_, p) := consume p .Semicolon
        .ok (.Var name initializer, p)
    | _ => .error panicCannotMatch

/-- `Parser::statement` (`parser.rs` lines 140-158). -/
def statement : Nat → PState → Except String (Stmt × PState)
  | 0, _ => .error outOfFuel
  | n + 1, p =>
    let (m, p) := checkMatch p [.For]
    if m then for_statement n p
    else
      let (m, p) := checkMatch p [.If]
      if m then if_statement n p
      else
        let (m, p) := checkMatch p [.Return]
        if m then return_statement n p
        else
          let (m, p) := checkMatch p [.While]
          if m then while_statement n p
          else
            let (m, p) := checkMatch p [.LBrace]
            if m then
              match block n p with
              | .error e => .error e
              | .ok (stmts, p) => .ok (.Block stmts, p)
            else expression_statement n p

/-- `Parser::for_statement` (`parser.rs` lines 159-197): parse the header
and body, then desugar through `assembleFor`. -/
def for_statement : Nat → PState → Except String (Stmt × PState)
  | 0, _ => .error outOfFuel
  | n + 1, p =>
    let (_, p) := consume p .LParen
    match (
      let (m, p) := checkMatch p [.Semicolon]
      if m then .ok ((none : Option Stmt), p)
      else
        let (mv, p) := checkMatch p [.Var]
        if mv then
          match variable_declaration n p with
          | .error e => .error e
          | .ok (s, p) => .ok (some s, p)
        else
          match expression_statement n p with
          | .error e => .error e
          | .ok (s, p) => .ok (some s, p) : Except String (Option Stmt × PState)) with
    | .error e => .error e
    | .ok (initializer, p) =>
      match (
        let (m, p) := checkMatch p [.Semicolon]
        if m then .ok ((none : Option Expr), p)
        else
          match expression n p with
          | .error e => .error e
          | .ok (c, p) => .ok (some c, p) : Except String (Option Expr × PState)) with
      | .error e => .error e
      | .ok (cond, p) =>
        let (_, p) := consume p .Semicolon
        match (
          let (m, p) := checkMatch p [.RParen]
          if m then .ok ((none : Option Expr), p)
          else
            match expression n p with
            | .error e => .error e
            | .ok (c, p) => .ok (some c, p) : Except String (Option Expr × PState)) with
        | .error e => .error e
        | .ok (increment, p) =>
          let (_, p) := consume p .RParen
          match statement n p with
          | .error e => .error e
          | .ok (body, p) =>
            match assembleFor initializer cond increment body with
            | .error e => .error e
            | .ok s => .ok (s, p)

/-- `Parser::if_statement` (`parser.rs` lines 198-208). -/
def if_statement : Nat → PState → Except String (Stmt × PState)
  | 0, _ => .error outOfFuel
  | n + 1, p =>
    let (_, p) := consume p .LParen
    match expression n p with
    | .error e => .error e
    | .ok (cond, p) =>
      let (_, p) := consume p .RParen
      match statement n p with
      | .error e => .error e
      | .ok (then_branch, p) =>
        let (m, p) := checkMatch p [.Else]
        if m then
          match statement n p with
          | .error e => .error e
          | .ok (eb, p) => .ok (.If cond then_branch (some eb), p)
        else .ok (.If cond then_branch none, p)

/-- `Parser::return_statement` (`parser.rs` lines 209-217). -/
def return_statement : Nat → PState → Except String (Stmt × PState)
  | 0, _ => .error outOfFuel
  | n + 1, p =>
    let keyword := previous p
    let (m, p) := checkMatch p [.Semicolon]
    match (if m then .ok ((none : Option Expr), p) else
      match expression n p with
      | .error e => .error e
      | .ok (v, p) => .ok (some v, p) : Except String (Option Expr × PState)) with
    | .error e => .error e
    | .ok (value, p) =>
      let (_, p) := consume p .Semicolon
      .ok (.Return keyword value, p)

/-- `Parser::while_statement` (`parser.rs` lines 218-224). -/
def while_statement : Nat → PState → Except String (Stmt × PState)
  | 0, _ => .error outOfFuel
  | n + 1, p =>
    let (_, p) := consume p .LParen
    match expression n p with
    | .error e => .error e
    | .ok (cond, p) =>
      let (_, p) := consume p .RParen
      match statement n p with
      | .error e => .error e
      | .ok (body, p) => .ok (.While cond body, p)

/-- `Parser::block` (`parser.rs` lines 225-232): its
`while !check_match(RBrace) && !is_at_end` loop plus the final `consume`. -/
def block : Nat → PState → Except String (List Stmt × PState)
  | 0, _ => .error outOfFuel
  | n + 1, p =>
    let (m, p) := checkMatch p [.RBrace]
    if !m && !isAtEnd p then
      match declaration n p with
      | .error e => .error e
      | .ok (s, p) =>
        match block n p with
        | .error e => .error e
        | .ok (rest, p) => .ok (s :: rest, p)
    else
      let (_, p) := consume p .RBrace
      .ok ([], p)

/-- `Parser::expression_statement` (`parser.rs` lines 233-237). -/
def expression_statement : Nat → PState → Except String (Stmt × PState)
  | 0, _ => .error outOfFuel
  | n + 1, p =>
    match expression n p with
    | .error e => .error e
    | .ok (value, p) =>
      let (_, p) := consume p .Semicolon
      .ok (.Expr value, p)

/-- `Parser::expression` (`parser.rs` lines 238-240). -/
def expression : Nat → PState → Except String (Expr × PState)
  | 0, _ => .error outOfFuel
  | n + 1, p => assignment n p

/-- `Parser::assignment` (`parser.rs` lines 241-253): right-associative;
a non-`Variable` left-hand side panics ("invalid assignment"). -/
def assignment : Nat → PState → Except String (Expr × PState)
  | 0, _ => .error outOfFuel
  | n + 1, p =>
    match or n p with
    | .error e => .error e
    | .ok (expr, p) =>
      let (m, p) := checkMatch p [.Eq]
      if m then
        match assignment n p with
        | .error e => .error e
        | .ok (value, p) =>
          match expr with
          | .Variable name => .ok (.Assign name value, p)
          | _ => .error panicInvalidAssignment
      else .ok (expr, p)

/-- `Parser::or` (`parser.rs` lines 254-262). -/
def or : Nat → PState → Except String (Expr × PState)
  | 0, _ => .error outOfFuel
  | n + 1, p =>
    match and n p with
    | .error e => .error e
    | .ok (expr, p) => or_loop n expr p

/-- The `while check_match(Or)` loop of `or`. -/
def or_loop : Nat → Expr → PState → Except String (Expr × PState)
  | 0, _, _ => .error outOfFuel
  | n + 1, expr, p =>
    let (m, p) := checkMatch p [.Or]
    if m then
      let op := previous p
      match and n p with
      | .error e => .error e
      | .ok (right, p) => or_loop n (.Logical op expr right) p
    else .ok (expr, p)

/-- `Parser::and` (`parser.rs` lines 263-271). -/
def and : Nat → PState → Except String (Expr × PState)
  | 0, _ => .error outOfFuel
  | n + 1, p =>
    match equality n p with
    | .error e => .error e
    | .ok (expr, p) => and_loop n expr p

/-- The `while check_match(And)` loop of `and`. -/
def and_loop : Nat → Expr → PState → Except String (Expr × PState)
  | 0, _, _ => .error outOfFuel
  | n + 1, expr, p =>
    let (m, p) := checkMatch p [.And]
    if m then
      let op := previous p
      match equality n p with
      | .error e => .error e
      | .ok (right, p) => and_loop n (.Logical op expr right) p
    else .ok (expr, p)

/-- `Parser::equality` (`parser.rs` lines 272-283): note the source checks
`Token::Eqq` and `Token::BangEq` (never `Neq`, which is what the lexer
emits for `!=`). -/
def equality : Nat → PState → Except String (Expr × PState)
  | 0, _ => .error outOfFuel
  | n + 1, p =>
    match comparison n p with
    | .error e => .error e
    | .ok (expr, p) => equality_loop n expr p

/-- The operator loop of `equality`. -/
def equality_loop : Nat → Expr → PState → Except String (Expr × PState)
  | 0, _, _ => .error outOfFuel
  | n + 1, expr, p =>
    let (m, p) := checkMatch p [.Eqq, .BangEq]
    if m then
      let op := previous p
      match comparison n p with
      | .error e => .error e
      | .ok (right, p) => equality_loop n (.BinaryExpr op expr right) p
    else .ok (expr, p)

/-- `Parser::comparison` (`parser.rs` lines 284-297). -/
def comparison : Nat → PState → Except String (Expr × PState)
  | 0, _ => .error outOfFuel
  | n + 1, p =>
    match term n p with
    | .error e => .error e
    | .ok (expr, p) => comparison_loop n expr p

/-- The operator loop of `comparison`. -/
def comparison_loop : Nat → Expr → PState → Except String (Expr × PState)
  | 0, _, _ => .error outOfFuel
  | n + 1, expr, p =>
    let (m, p) := checkMatch p [.Greater, .Geq, .Less, .Leq]
    if m then
      let op := previous p
      match term n p with
      | .error e => .error e
      | .ok (right, p) => comparison_loop n (.BinaryExpr op expr right) p
    else .ok (expr, p)

/-- `Parser::term` (`parser.rs` lines 298-308). -/
def term : Nat → PState → Except String (Expr × PState)
  | 0, _ => .error outOfFuel
  | n + 1, p =>
    match factor n p with
    | .error e => .error e
    | .ok (expr, p) => term_loop n expr p

/-- The `while check_match(Minus, Plus)` loop of `term`. -/
def term_loop : Nat → Expr → PState → Except String (Expr × PState)
  | 0, _, _ => .error outOfFuel
  | n + 1, expr, p =>
    let (m, p) := checkMatch p [.Minus, .Plus]
    if m then
      let op := previous p
      match factor n p with
      | .error e => .error e
      | .ok (right, p) => term_loop n (.BinaryExpr op expr right) p
    else .ok (expr, p)

/-- `Parser::factor` (`parser.rs` lines 309-319). -/
def factor : Nat → PState → Except String (Expr × PState)
  | 0, _ => .error outOfFuel
  | n + 1, p =>
    match unary n p with
    | .error e => .error e
    | .ok (expr, p) => factor_loop n expr p

/-- The `while check_match(Div, Times)` loop of `factor`. -/
def factor_loop : Nat → Expr → PState → Except String (Expr × PState)
  | 0, _, _ => .error outOfFuel
  | n + 1, expr, p =>
    let (m, p) := checkMatch p [.Div, .Times]
    if m then
      let op := previous p
      match unary n p with
      | .error e => .error e
      | .ok (right, p) => factor_loop n (.BinaryExpr op expr right) p
    else .ok (expr, p)

/-- `Parser::unary` (`parser.rs` lines 320-329). -/
def unary : Nat → PState → Except String (Expr × PState)
  | 0, _ => .error outOfFuel
  | n + 1, p =>
    let (m, p) := checkMatch p [.Bang, .Minus]
    if m then
      let op := previous p
      match unary n p with
      | .error e => .error e
      | .ok (right, p) => .ok (.UnaryExpr op right, p)
    else call n p

/-- `Parser::call` (`parser.rs` lines 330-342). -/
def call : Nat → PState → Except String (Expr × PState)
  | 0, _ => .error outOfFuel
  | n + 1, p =>
    match primary n p with
    | .error e => .error e
    | .ok (expr, p) => call_loop n expr p

/-- The postfix-`(` loop of `call`. -/
def call_loop : Nat → Expr → PState → Except String (Expr × PState)
  | 0, _, _ => .error outOfFuel
  | n + 1, expr, p =>
    let (m, p) := checkMatch p [.LParen]
    if m then
      match finish_call n expr p with
      | .error e => .error e
      | .ok (expr2, p) => call_loop n expr2 p
    else .ok (expr, p)

/-- `Parser::finish_call` (`parser.rs` lines 343-357). -/
def finish_call : Nat → Expr → PState → Except String (Expr × PState)
  | 0, _, _ => .error outOfFuel
  | n + 1, expr, p =>
    match (if check p .RParen then .ok (([] : List Expr), p) else
      match expression n p with
      | .error e => .error e
      | .ok (a, p) => args_loop n [a] p : Except String (List Expr × PState)) with
    | .error e => .error e
    | .ok (args, p) =>
      let (paren, p) := consume p .RParen
      .ok (.Call expr paren args, p)

/-- The `while check_match(Comma)` argument loop of `finish_call`. -/
def args_loop : Nat → List Expr → PState → Except String (List Expr × PState)
  | 0, _, _ => .error outOfFuel
  | n + 1, acc, p =>
    let (m, p) := checkMatch p [.Comma]
    if m then
      match expression n p with
      | .error e => .error e
      | .ok (a, p) => args_loop n (acc ++ [a]) p
    else .ok (acc, p)

/-- `Parser::primary` (`parser.rs` lines 358-383): the fall-through
returns a `false` literal (the source's TODO edge case). -/
def primary : Nat → PState → Except String (Expr × PState)
  | 0, _ => .error outOfFuel
  | n + 1, p =>
    let (m, p) := checkMatch p [.False]
    if m then .ok (.Literal strFalse, p)
    else
      let (m, p) := checkMatch p [.True]
      if m then .ok (.Literal strTrue, p)
      else
        match peek p with
        | .Number txt => .ok (.Literal txt, advance p)
        | .Ident _ =>
          let p := advance p
          .ok (.Variable (previous p), p)
        | _ =>
          let (m, p) := checkMatch p [.LParen]
          if m then
            match expression n p with
            | .error e => .error e
            | .ok (expr, p) =>
              let (_, p) := consume p .RParen
              .ok (.Grouping expr, p)
          else .ok (.Literal strFalse, p)

end

/-- `Parser::parse` (`parser.rs` lines 85-91): its
`while !is_at_end` loop over `declaration`. -/
def parse_loop : Nat → PState → Except String (List Stmt × PState)
  | 0, _ => .error outOfFuel
  | n + 1, p =>
    if !isAtEnd p then
      match declaration n p with
      | .error e => .error e
      | .ok (s, p) =>
        match parse_loop n p with
        | .error e => .error e
        | .ok (rest, p) => .ok (s :: rest, p)
    else .ok ([], p)

/-- Run the parser on a token list, with fuel ample for the input size. -/
def parse (tokens : List Token) : Except String (List Stmt) :=
  match parse_loop (20 * tokens.length + 20) ⟨tokens, 0⟩ with
  | .error e => .error e
  | .ok (stmts, _) => .ok stmts

end Parser

end Mai

namespace Mai

/-! ## Lowering engine (`src/llvm_translator.rs`)

LLVM values, instructions, basic blocks and the module are embedded as
plain data.  A float constant built from a literal's text is kept as that
text (`constText`); `constZero` is `f64_type().const_zero()` /
`const_float(0.0)`.  Each value-producing instruction carries a fresh
numeric id; `Value.instr id` refers to it.  A basic block is addressed by
`(function index, block index)` within the module.  Rust `panic!` /
`unwrap` failures are `TErr.panic`, `Err(&str)` diagnostics are
`TErr.diag`; both carry the final mutated state, since the LLVM module
outlives a failed `translate` call. -/

/-- An LLVM float predicate as used by the translator. -/
inductive FPred where
  | ONE | ULT
  deriving DecidableEq, Repr

/-- An LLVM value reference. -/
inductive Value where
  | constZero
  | constText (text : String)
  | param (fn : Nat) (idx : Nat)
  | instr (id : Nat)
  deriving DecidableEq, Repr

/-- An LLVM instruction as emitted by the translator.  `build_phi`
immediately followed by `add_incoming` is modelled as one `phi`
instruction carrying its incoming `(value, block)` pairs. -/
inductive Instr where
  | alloca (id : Nat) (name : String)
  | store (ptr : Nat) (v : Value)
  | load (id : Nat) (ptr : Nat) (name : String)
  | fadd (id : Nat) (l : Value) (r : Value) (name : String)
  | fsub (id : Nat) (l : Value) (r : Value) (name : String)
  | fcmp (id : Nat) (p : FPred) (l : Value) (r : Value) (name : String)
  | uitofp (id : Nat) (v : Value) (name : String)
  | condBr (c : Value) (thenB : Nat × Nat) (elseB : Nat × Nat)
  | br (dest : Nat × Nat)
  | ret (v : Value)
  | phi (id : Nat) (name : String) (incoming : List (Value × (Nat × Nat)))
  deriving DecidableEq, Repr

/-- A basic block: name and ordered instruction list. -/
structure BBlock where
  name : String
  instrs : List Instr
  deriving DecidableEq, Repr

/-- An LLVM function in the module: its name, parameter names
(one f64 parameter each, as built by `translate_function_sig`), and its
basic blocks in append order. -/
structure IRFunction where
  name : String
  params : List String
  blocks : List BBlock
  deriving DecidableEq, Repr

/-- Translator failure: `diag` is `Err(&'static str)` returned to the
caller; `panic` is a Rust panic (`panic!`, let-else panic, or
`Option::unwrap` of `None`). -/
inductive TErr where
  | diag (msg : String)
  | panic (msg : String)
  deriving DecidableEq, Repr

/-- The mutable context of a lowering run: the module's function list,
`fn_value_opt`, the builder's insertion block, the `variables` map (field
`vars`, since `variables` is a reserved word here) and a fresh-id counter
for value-producing instructions. -/
structure TState where
  module : List IRFunction
  fnValueOpt : Option Nat
  insertAt : Option (Nat × Nat)
  vars : List (String × Nat)
  nextId : Nat
  deriving DecidableEq, Repr

def msgUnwrapNone : String := "called Option unwrap on a None value"
def msgNotAFunction : String := "Not a function"
def msgNotArgIdent : String := "Not an arg ident"
def msgNotAnIdent : String := "Not an ident"
def msgCouldNotHandle : String := "Could not handle value"
def msgParseFloat : String := "invalid float literal"
def msgVarNotFound : String := "Could not find a matching variable"
def msgUnsupportedBinop : String := "unsupported binary operation"
def msgCannotCompileExpr : String := "unable to compile expression to LLVM"
def msgInvalidGenerated : String := "Invalid generated function"
def msgNoPosition : String := "builder has no insertion position"
def nmEntry : String := "entry"
def nmThen : String := "then"
def nmElse : String := "else"
def nmIfCont : String := "ifcont"
def nmIfCond : String := "ifcond"
def nmIfTmp : String := "iftmp"
def nmTmpAdd : String := "tmpadd"
def nmTmpSub : String := "tmpsub"
def nmTmpCmp : String := "tmpcmp"
def nmTmpBool : String := "tmpbool"

/-- Result of a translator step: a diagnostic or panic, or a value,
always together with the mutated context. -/
def TRes (α : Type) : Type := Except TErr α × TState

/-- Sequencing for `TRes`: errors short-circuit but keep the state. -/
def tbind {α β : Type} (r : TRes α) (f : α → TState → TRes β) : TRes β :=
  match r with
  | (.ok a, st) => f a st
  | (.error e, st) => (.error e, st)

/-- Apply `g` to the module's function at index `fi`. -/
def modifyFun (fi : Nat) (g : IRFunction → IRFunction) (st : TState) : TState :=
  match st.module.get? fi with
  | some f => { st with module := st.module.set fi (g f) }
  | none => st

/-- Apply `g` to block `bi` of the module's function `fi`. -/
def modifyBlock (fi : Nat) (bi : Nat) (g : BBlock → BBlock) (st : TState) : TState :=
  modifyFun fi (fun f =>
    match f.blocks.get? bi with
    | some b => { f with blocks := f.blocks.set bi (g b) }
    | none => f) st

/-- A `builder.build_*` call: append the instruction to the insertion
block.  The builder is positioned at a real block of the module at every
call site reached by `translate`; building with no position, or at a
block that does not exist, is undefined behaviour in inkwell and is
modelled as a panic. -/
def emitInstr (i : Instr) (st : TState) : TRes Unit :=
  match st.insertAt with
  | none => (.error (.panic msgNoPosition), st)
  | some (fi, bi) =>
    match st.module.get? fi with
    | none => (.error (.panic msgNoPosition), st)
    | some f =>
      match f.blocks.get? bi with
      | none => (.error (.panic msgNoPosition), st)
      | some _ =>
        (.ok (), modifyBlock fi bi (fun b => { b with instrs := b.instrs ++ [i] }) st)

/-- Emit a value-producing instruction and return its value: the
instruction gets the next fresh id, by which its value is referenced. -/
def emitValue (mk : Nat → Instr) (st : TState) : TRes Value :=
  let id := st.nextId
  let st := { st with nextId := st.nextId + 1 }
  match emitInstr (mk id) st with
  | (.ok _, st1) => (.ok (.instr id), st1)
  | (.error e, st1) => (.error e, st1)

/-- `context.append_basic_block(fn, name)`: the new block's index. -/
def appendBasicBlock (fi : Nat) (name : String) (st : TState) : Nat × TState :=
  match st.module.get? fi with
  | some f =>
    (f.blocks.length,
      modifyFun fi (fun f => { f with blocks := f.blocks ++ [⟨name, []⟩] }) st)
  | none => (0, st)

/-- `builder.position_at_end(block)`. -/
def positionAtEnd (fi : Nat) (bi : Nat) (st : TState) : TState :=
  { st with insertAt := some (fi, bi) }

/-- `module.add_function(name, fn_type, None)` together with the
`set_name` loop over the parameters: registers a new function (one f64
parameter per name, f64 return) and returns its index. -/
def addFunction (name : String) (paramNames : List String) (st : TState) : Nat × TState :=
  (st.module.length, { st with module := st.module ++ [⟨name, paramNames, []⟩] })

/-- The let-else extraction of `Token::Ident` parameter names
(`llvm_translator.rs` lines 51-57 and 75-79): a non-`Ident` parameter
token panics ("Not an arg ident"). -/
def identNames : List Token → Except TErr (List String)
  | [] => .ok []
  | .Ident s :: rest => (identNames rest).map (fun ns => s :: ns)
  | _ :: _ => .error (.panic msgNotArgIdent)

/-- `HashMap::insert` on the association-list model of `variables`. -/
def insertVar (name : String) (ptr : Nat) : List (String × Nat) → List (String × Nat)
  | [] => [(name, ptr)]
  | (k, v) :: rest =>
    if k = name then (name, ptr) :: rest else (k, v) :: insertVar name ptr rest

/-- `HashMap::get` on the association-list model of `variables`. -/
def lookupVar (name : String) : List (String × Nat) → Option Nat
  | [] => none
  | (k, v) :: rest => if k = name then some v else lookupVar name rest

/-- A digit character (ASCII 0-9). -/
def isDigitChar (c : Char) : Bool := 48 ≤ c.toNat && c.toNat ≤ 57

/-- Split a leading run of digits: their count and the rest. -/
def splitDigits : List Char → Nat × List Char
  | [] => (0, [])
  | c :: cs =>
    if isDigitChar c then
      let (n, r) := splitDigits cs
      (n + 1, r)
    else (0, c :: cs)

/-- Exponent suffix of a float literal: empty, or `e`/`E`, optional sign,
one or more digits, nothing after. -/
def expOk : List Char → Bool
  | [] => true
  | c :: cs =>
    if c.toNat == 101 || c.toNat == 69 then
      let cs2 := match cs with
        | d :: ds => if d.toNat == 43 || d.toNat == 45 then ds else d :: ds
        | [] => []
      let (n, r) := splitDigits cs2
      decide (1 ≤ n) && r.isEmpty
    else false

/-- Significand-and-exponent body of a float literal (sign already
stripped): digits, optional dot and more digits — at least one digit in
all — then an optional well-formed exponent. -/
def mantissaOk (cs : List Char) : Bool :=
  let (n1, r1) := splitDigits cs
  match r1 with
  | [] => decide (1 ≤ n1)
  | c :: r2 =>
    if c.toNat == 46 then
      let (n2, r3) := splitDigits r2
      decide (1 ≤ n1 + n2) && expOk r3
    else decide (1 ≤ n1) && expOk (c :: r2)

/-- Lower-case an ASCII letter. -/
def asciiLower (c : Char) : Char :=
  if 65 ≤ c.toNat && c.toNat ≤ 90 then Char.ofNat (c.toNat + 32) else c

/-- Models Rust std's `str::parse::<f64>()` success (the `FromStr` grammar
for `f64`, library code outside this repository): optional sign, then
`inf`, `infinity` or `nan` (case-insensitive) or a significand with at
least one digit and an optional exponent.  `translate_expr` unwraps this
parse, so a literal failing it panics at lowering time. -/
def rustF64ParseOk (s : String) : Bool :=
  let cs := match s.data with
    | c :: rest => if c.toNat == 43 || c.toNat == 45 then rest else c :: rest
    | [] => []
  let low := cs.map asciiLower
  !s.data.isEmpty &&
    (low == ['i', 'n', 'f'] || low == ['i', 'n', 'f', 'i', 'n', 'i', 't', 'y'] ||
      low == ['n', 'a', 'n'] || mantissaOk cs)

/-- `Translator::create_stack_alloc` (`llvm_translator.rs` lines 24-35):
a temporary builder positioned before the entry block's first instruction
(or at its end when empty) builds the alloca, so allocas accumulate at the
front of the entry block.  Returns the pointer (the alloca's id). -/
def create_stack_alloc (name : String) (st : TState) : TRes Nat :=
  match st.fnValueOpt with
  | none => (.error (.panic msgUnwrapNone), st)
  | some fi =>
    match st.module.get? fi with
    | none => (.error (.panic msgUnwrapNone), st)
    | some f =>
      match f.blocks with
      | [] => (.error (.panic msgUnwrapNone), st)
      | _ :: _ =>
        let id := st.nextId
        let st := { st with nextId := st.nextId + 1 }
        (.ok id,
          modifyBlock fi 0 (fun b => { b with instrs := Instr.alloca id name :: b.instrs }) st)

/-- `Translator::translate_expr` (`llvm_translator.rs` lines 172-219). -/
def translate_expr (e : Expr) (st : TState) : TRes Value :=
  match e with
  | .Literal nb =>
    if rustF64ParseOk nb then (.ok (.constText nb), st)
    else (.error (.panic msgParseFloat), st)
  | .Variable name =>
    match name with
    | .Ident id =>
      match lookupVar id st.vars with
      | some ptr => emitValue (fun i => .load i ptr id) st
      | none => (.error (.diag msgVarNotFound), st)
    | _ => (.error (.panic msgNotAnIdent), st)
  | .BinaryExpr op left right =>
    tbind (translate_expr left st) (fun lhs st =>
    tbind (translate_expr right st) (fun rhs st =>
      match op with
      | .Plus => emitValue (fun i => .fadd i lhs rhs nmTmpAdd) st
      | .Minus => emitValue (fun i => .fsub i lhs rhs nmTmpSub) st
      | .Less =>
        tbind (emitValue (fun i => .fcmp i .ULT lhs rhs nmTmpCmp) st) (fun cmp st =>
          emitValue (fun i => .uitofp i cmp nmTmpBool) st)
      | .Greater =>
        tbind (emitValue (fun i => .fcmp i .ULT rhs lhs nmTmpCmp) st) (fun cmp st =>
          emitValue (fun i => .uitofp i cmp nmTmpBool) st)
      | _ => (.error (.diag msgUnsupportedBinop), st)))
  | _ => (.error (.diag msgCannotCompileExpr), st)

mutual

/-- `Translator::translate_stmt` (`llvm_translator.rs` lines 100-120):
`Block` lowers `statements.first().unwrap()` only; `Return` without a
value yields the zero constant; every other statement kind panics. -/
def translate_stmt (stmt : Stmt) (st : TState) : TRes Value :=
  match stmt with
  | .Expr e => translate_expr e st
  | .If cond then_branch else_branch =>
    translateConditional cond then_branch else_branch st
  | .Block statements =>
    match statements with
    | [] => (.error (.panic msgUnwrapNone), st)
    | s :: _ => translate_stmt s st
  | .Return _ value =>
    match value with
    | some v => translate_expr v st
    | none => (.ok .constZero, st)
  | _ => (.error (.panic msgCouldNotHandle), st)
termination_by sizeOf stmt
decreasing_by
  all_goals simp_wf
  all_goals first
  | omega
  | (cases cond <;> simp_arith)

/-- `Translator::translate_conditional` (`llvm_translator.rs` lines
122-170), in source order: unwrap `fn_value_opt`; lower the condition and
compare it `ONE` against the zero constant; append `then`, `else`,
`ifcont` blocks and emit the conditional branch; lower the then branch,
emit its branch to `ifcont` and record the insertion block as the
then-exit; position at `else` and `unwrap` the optional else branch (a
panic when absent); lower it, record the else-exit, emit its branch;
position at `ifcont` and emit the phi with the two incoming pairs. -/
def translateConditional (cond : Expr) (then_branch : Stmt)
    (else_branch : Option Stmt) (st : TState) : TRes Value :=
  match st.fnValueOpt with
  | none => (.error (.panic msgUnwrapNone), st)
  | some parent =>
    tbind (translate_expr cond st) (fun condv st =>
    tbind (emitValue (fun i => .fcmp i .ONE condv .constZero nmIfCond) st) (fun condb st =>
      let (then_bb, st) := appendBasicBlock parent nmThen st
      let (else_bb, st) := appendBasicBlock parent nmElse st
      let (cont_bb, st) := appendBasicBlock parent nmIfCont st
      tbind (emitInstr (.condBr condb (parent, then_bb) (parent, else_bb)) st) (fun _ st =>
      let st := positionAtEnd parent then_bb st
      tbind (translate_stmt then_branch st) (fun then_val st =>
      tbind (emitInstr (.br (parent, cont_bb)) st) (fun _ st =>
        match st.insertAt with
        | none => (.error (.panic msgUnwrapNone), st)
        | some thenExit =>
          let st := positionAtEnd parent else_bb st
          match else_branch with
          | none => (.error (.panic msgUnwrapNone), st)
          | some else_b =>
            tbind (translate_stmt else_b st) (fun else_val st =>
              match st.insertAt with
              | none => (.error (.panic msgUnwrapNone), st)
              | some elseExit =>
                tbind (emitInstr (.br (parent, cont_bb)) st) (fun _ st =>
                  let st := positionAtEnd parent cont_bb st
                  emitValue
                    (fun i => .phi i nmIfTmp [(then_val, thenExit), (else_val, elseExit)])
                    st)))))))
termination_by 1 + sizeOf then_branch + sizeOf else_branch
decreasing_by
  all_goals simp_wf
  all_goals omega

end

/-- `Translator::translate_function_sig` (`llvm_translator.rs` lines
37-60): panics unless the statement is a `Function` whose name is an
`Ident`; registers the signature in the module and names the parameters,
panicking on a non-`Ident` parameter token. -/
def translate_function_sig (fn : Stmt) (st : TState) : TRes Nat :=
  match fn with
  | .Function (.Ident fn_name) params _ =>
    match identNames params with
    | .error e => (.error e, st)
    | .ok names =>
      let (fi, st) := addFunction fn_name names st
      (.ok fi, st)
  | _ => (.error (.panic msgNotAFunction), st)

/-- The parameter loop of `translate_function` (`llvm_translator.rs`
lines 75-83): for each parameter, allocate a stack slot, store the
incoming value, and record the slot under the parameter's name. -/
def allocParams (sig : Nat) : List Token → Nat → TState → TRes Unit
  | [], _, st => (.ok (), st)
  | .Ident arg_ident :: rest, i, st =>
    tbind (create_stack_alloc arg_ident st) (fun ptr st =>
    tbind (emitInstr (.store ptr (.param sig i)) st) (fun _ st =>
      let st := { st with vars := insertVar arg_ident ptr st.vars }
      allocParams sig rest (i + 1) st))
  | _ :: _, _, st => (.error (.panic msgNotArgIdent), st)

/-- Whether an instruction is a block terminator. -/
def isTerminator : Instr → Bool
  | .condBr _ _ _ => true
  | .br _ => true
  | .ret _ => true
  | _ => false

/-- Modelled from the spec: `FunctionValue::verify` is LLVM library code
outside this repository; §4.3 step 5 describes it as the structural
well-formedness check ("every block terminated, every referenced value
dominated by its definition").  The model checks the block-termination
condition: every block ends in a terminator and has no terminator before
its last instruction. -/
def verifyFunction (f : IRFunction) : Bool :=
  f.blocks.all (fun b =>
    match b.instrs.getLast? with
    | some i => isTerminator i && b.instrs.dropLast.all (fun j => !isTerminator j)
    | none => false)

/-- `Translator::translate_function` (`llvm_translator.rs` lines 62-98):
register the signature; an empty body returns it as a bare declaration;
otherwise append and enter the entry block, allocate parameter slots,
lower the FIRST body statement only, emit the return, then verify — on
verification failure the function is deleted from the module and lowering
fails with "Invalid generated function".  `fpm.run_on` (the external
optimizer) does not change what is registered and is modelled as the
identity. -/
def translate_function (fn : Stmt) (st : TState) : TRes Nat :=
  match fn with
  | .Function name params body =>
    tbind (translate_function_sig (.Function name params body) st) (fun sig st =>
      match body with
      | [] => (.ok sig, st)
      | b :: _ =>
        let (entry, st) := appendBasicBlock sig nmEntry st
        let st := positionAtEnd sig entry st
        let st := { st with fnValueOpt := some sig }
        tbind (allocParams sig params 0 st) (fun _ st =>
        tbind (translate_stmt b st) (fun bodyVal st =>
        tbind (emitInstr (.ret bodyVal) st) (fun _ st =>
          match st.module.get? sig with
          | none => (.error (.panic msgUnwrapNone), st)
          | some f =>
            if verifyFunction f then (.ok sig, st)
            else
              (.error (.diag msgInvalidGenerated),
                { st with module := st.module.eraseIdx sig })))))
  | _ => (.error (.panic msgNotAFunction), st)

/-- `Translator::translate` (`llvm_translator.rs` lines 221-238): build a
fresh translator over the shared module and lower one statement. -/
def Translator.translate (module : List IRFunction) (stmt : Stmt) : TRes Nat :=
  translate_function stmt ⟨module, none, none, [], 0⟩

end Mai

namespace Mai

/-! ## Derived observations, proof invariants and concrete fixtures -/

/-- The instruction list of block `bi` of function `fi` of the module. -/
def blockInstrs (st : TState) (fi bi : Nat) : List Instr :=
  match st.module.get? fi with
  | some f =>
    match f.blocks.get? bi with
    | some b => b.instrs
    | none => []
  | none => []

/-- Invariant of one translator step started at `st`: the module's function
count is unchanged, and a returned diagnostic is never the
verification-failure message (only `translate_function` produces that one,
after deleting the function). -/
def LenInv {α : Type} (st : TState) (r : TRes α) : Prop :=
  (r.2).module.length = st.module.length ∧
  ∀ d, r.1 = .error (.diag d) → d ≠ msgInvalidGenerated

/-- The function statement `fun f() { y; }` — its body references the
undeclared variable `y`, so body lowering fails with the
variable-not-found diagnostic. -/
def cFunF : Stmt := .Function (.Ident "f") [] [.Expr (.Variable (.Ident "y"))]

/-- The translator state after `Translator.translate [] cFunF` fails:
the signature of `f` (with its empty entry block) is still registered. -/
def stFailF : TState := ⟨[⟨"f", [], [⟨"entry", []⟩]⟩], some 0, some (0, 0), [], 0⟩

/-- A lowering context in the middle of lowering a function `g`: one
registered function with an empty entry block, the builder positioned
there. -/
def stIf0 : TState := ⟨[⟨"g", [], [⟨"entry", []⟩]⟩], some 0, some (0, 0), [], 0⟩

/-- The state after successfully lowering `if (1) 2; else 3;` from
`stIf0`: condition comparison and conditional branch in the entry block,
`then`/`else` blocks branching to `ifcont`, and the two-incoming phi in
`ifcont`. -/
def stIf5 : TState :=
  ⟨[⟨"g", [],
     [⟨"entry", [.fcmp 0 .ONE (.constText "1") .constZero "ifcond",
                 .condBr (.instr 0) (0, 1) (0, 2)]⟩,
      ⟨"then", [.br (0, 3)]⟩,
      ⟨"else", [.br (0, 3)]⟩,
      ⟨"ifcont", [.phi 1 "iftmp" [(.constText "2", (0, 1)), (.constText "3", (0, 2))]]⟩]⟩],
   some 0, some (0, 3), [], 2⟩

/-- The state at which lowering `if (1) 2;` (no else branch) from `stIf0`
panics: the then branch is lowered and terminated, and the `unwrap` of the
absent else branch aborts with the builder positioned at the `else`
block. -/
def stIf7 : TState :=
  ⟨[⟨"g", [],
     [⟨"entry", [.fcmp 0 .ONE (.constText "1") .constZero "ifcond",
                 .condBr (.instr 0) (0, 1) (0, 2)]⟩,
      ⟨"then", [.br (0, 3)]⟩,
      ⟨"else", []⟩,
      ⟨"ifcont", []⟩]⟩],
   some 0, some (0, 2), [], 1⟩

/-- The token sequence of the `for` header-and-body `(;1;) x;` (as
`for_statement` sees it, after the `for` keyword token). -/
def forToks : List Token :=
  [.LParen, .Semicolon, .Number "1", .Semicolon, .RParen, .Ident "x", .Semicolon]

/-- The token sequence of `(1) x;` as `if_statement` sees it (after the
`if` keyword token): a conditional with no else branch. -/
def ifToks : List Token := [.LParen, .Number "1", .RParen, .Ident "x", .Semicolon]

/-- The token sequence the lexer produces for `a + b * c`. -/
def abcToks (a b c : String) : List Token :=
  [.Ident a, .Plus, .Ident b, .Times, .Ident c]

/-- A lowering step that failed (diagnostic or panic), whatever state it
left behind. -/
def isErr {α : Type} (r : TRes α) : Prop :=
  ∃ (e : TErr) (st2 : TState), r = (.error e, st2)

/-- A character that starts no recognized token form of `lex`: not
whitespace, none of the punctuation characters, no number or identifier
start, and none of the operator characters. -/
def isUnknownStartChar (c : Char) : Bool :=
  !rustIsWhitespace c &&
  !(c.toNat == 40) && !(c.toNat == 41) && !(c.toNat == 44) && !(c.toNat == 59) &&
  !(c.toNat == 123) && !(c.toNat == 125) &&
  !isNumStartChar c && !isIdentStartChar c &&
  !(c.toNat == 43) && !(c.toNat == 45) && !(c.toNat == 42) && !(c.toNat == 47) &&
  !(c.toNat == 33) && !(c.toNat == 61) && !(c.toNat == 60) && !(c.toNat == 62)

end Mai

namespace Mai

/-! ## Helper lemmas -/

theorem pairEq {α β : Type} {a c : α} {b d : β} (h : (a, b) = (c, d)) : a = c ∧ b = d :=
  ⟨congrArg Prod.fst h, congrArg Prod.snd h⟩

theorem LenInv.tbind {α β : Type} {st : TState} {r : TRes α} {f : α → TState → TRes β}
    (h1 : LenInv st r) (h2 : ∀ a st', r = (.ok a, st') → LenInv st' (f a st')) :
    LenInv st (tbind r f) := by
  rcases r with ⟨rv, st'⟩
  cases rv with
  | error e =>
    refine ⟨?_, fun d hd => ?_⟩
    · simp only [Mai.tbind]
      exact h1.1
    · simp only [Mai.tbind] at hd
      injection hd with he
      subst he
      exact h1.2 d rfl
  | ok a =>
    rcases h2 a st' rfl with ⟨l2, d2⟩
    exact ⟨by rw [Mai.tbind]; rw [l2]; exact h1.1, by rw [Mai.tbind]; exact d2⟩

theorem LenInv.trans_start {α : Type} {st0 : TState} (st1 : TState)
    (h : st1.module.length = st0.module.length) {r : TRes α}
    (hr : LenInv st1 r) : LenInv st0 r :=
  ⟨hr.1.trans h, hr.2⟩

theorem pure_inv {α : Type} (st : TState) (a : α) : LenInv st ((.ok a, st) : TRes α) :=
  ⟨rfl, by intro d hd; cases hd⟩

theorem panic_inv {α : Type} (st : TState) (m : String) :
    LenInv st ((.error (.panic m), st) : TRes α) :=
  ⟨rfl, by intro d hd; cases hd⟩

theorem diag_inv {α : Type} (st : TState) (m : String) (hm : m ≠ msgInvalidGenerated) :
    LenInv st ((.error (.diag m), st) : TRes α) :=
  ⟨rfl, by intro d hd; cases hd; exact hm⟩

theorem modifyFun_module_length (fi : Nat) (g : IRFunction → IRFunction) (st : TState) :
    (modifyFun fi g st).module.length = st.module.length := by
  unfold modifyFun
  cases st.module.get? fi <;> simp

theorem modifyBlock_module_length (fi bi : Nat) (g : BBlock → BBlock) (st : TState) :
    (modifyBlock fi bi g st).module.length = st.module.length := by
  unfold modifyBlock; exact modifyFun_module_length ..

theorem emitInstr_inv (i : Instr) (st : TState) : LenInv st (emitInstr i st) := by
  unfold emitInstr
  rcases h : st.insertAt with _ | ⟨fi, bi⟩
  · exact panic_inv ..
  · dsimp only
    cases st.module.get? fi with
    | none => exact panic_inv ..
    | some f =>
      dsimp only
      cases f.blocks.get? bi with
      | none => exact panic_inv ..
      | some b =>
        dsimp only
        exact ⟨modifyBlock_module_length .., by intro d hd; cases hd⟩

theorem emitValue_inv (mk : Nat → Instr) (st : TState) : LenInv st (emitValue mk st) := by
  unfold emitValue
  dsimp only
  have h := emitInstr_inv (mk st.nextId) { st with nextId := st.nextId + 1 }
  split
  next a st1 heq =>
    rw [heq] at h
    exact ⟨h.1, by intro d hd; cases hd⟩
  next e st1 heq =>
    rw [heq] at h
    refine ⟨h.1, fun d hd => ?_⟩
    injection hd with he
    subst he
    exact h.2 d rfl

theorem appendBasicBlock_module_length (fi : Nat) (name : String) (st : TState) :
    ((appendBasicBlock fi name st).2).module.length = st.module.length := by
  unfold appendBasicBlock
  cases st.module.get? fi <;> simp [modifyFun_module_length]

theorem create_stack_alloc_inv (name : String) (st : TState) :
    LenInv st (create_stack_alloc name st) := by
  unfold create_stack_alloc
  split
  · exact panic_inv ..
  · split
    · exact panic_inv ..
    · split
      · exact panic_inv ..
      · exact ⟨modifyBlock_module_length .., by intro d hd; cases hd⟩

theorem translate_expr_inv : ∀ (e : Expr) (st : TState), LenInv st (translate_expr e st) := by
  intro e st
  induction e, st using translate_expr.induct with
  | case1 st nb h => simp only [translate_expr, h, if_true]; exact pure_inv ..
  | case2 st nb h => simp only [translate_expr, h, if_false]; exact panic_inv ..
  | case3 st text ptr h => simp only [translate_expr, h]; exact emitValue_inv ..
  | case4 st text h =>
    simp only [translate_expr, h]
    exact diag_inv _ _ (by decide)
  | case5 st name h =>
    cases name
    all_goals first
    | exact absurd rfl (h _)
    | (simp only [translate_expr]; exact panic_inv ..)
  | case6 st op left right ihl ihr =>
    simp only [translate_expr]
    refine LenInv.tbind ihl (fun lv st1 _ => ?_)
    refine LenInv.tbind (ihr st1) (fun rv st2 _ => ?_)
    cases op
    all_goals first
    | exact emitValue_inv ..
    | exact LenInv.tbind (emitValue_inv ..) (fun c st3 _ => emitValue_inv ..)
    | exact diag_inv _ _ (by decide)
  | case7 t st h1 h2 h3 =>
    cases t with
    | Literal nb => exact absurd rfl (h1 nb)
    | Variable name => exact absurd rfl (h2 name)
    | BinaryExpr op l r => exact absurd rfl (h3 op l r)
    | _ => simp only [translate_expr]; exact diag_inv _ _ (by decide)

set_option maxHeartbeats 1600000 in
theorem translate_stmt_inv : ∀ (s : Stmt) (st : TState), LenInv st (translate_stmt s st) := by
  refine translate_stmt.induct
    (fun s st => LenInv st (translate_stmt s st))
    (fun c t e st => LenInv st (translateConditional c t e st))
    ?_ ?_ ?_ ?_ ?_ ?_ ?_ ?_ ?_
  · intro st e
    simp only [translate_stmt]
    exact translate_expr_inv ..
  · intro st cond tb eb ih
    simp only [translate_stmt]
    exact ih
  · intro st
    simp only [translate_stmt]
    exact panic_inv ..
  · intro st s tail ih
    simp only [translate_stmt]
    exact ih
  · intro st kw v
    simp only [translate_stmt]
    exact translate_expr_inv ..
  · intro st kw
    simp only [translate_stmt]
    exact pure_inv ..
  · intro stmt st h1 h2 h3 h4
    cases stmt with
    | Expr e => exact absurd rfl (h1 e)
    | If c tb eb => exact absurd rfl (h2 c tb eb)
    | Block l => exact absurd rfl (h3 l)
    | Return kw v => exact absurd rfl (h4 kw v)
    | _ =>
      simp only [translate_stmt]
      exact panic_inv ..
  · intro cond tb eb st hfn
    simp only [translateConditional, hfn]
    exact panic_inv ..
  · intro cond tb eb st fi hfn ihThen ihElse
    simp only [translateConditional, hfn]
    refine LenInv.tbind (translate_expr_inv ..) (fun condv st1 _ => ?_)
    refine LenInv.tbind (emitValue_inv ..) (fun condb st2 _ => ?_)
    rcases hA : appendBasicBlock fi nmThen st2 with ⟨tbb, stA⟩
    have lA : stA.module.length = st2.module.length := by
      have h := appendBasicBlock_module_length fi nmThen st2; rw [hA] at h; exact h
    rcases hB : appendBasicBlock fi nmElse stA with ⟨ebb, stB⟩
    have lB : stB.module.length = stA.module.length := by
      have h := appendBasicBlock_module_length fi nmElse stA; rw [hB] at h; exact h
    rcases hC : appendBasicBlock fi nmIfCont stB with ⟨cbb, stC⟩
    have lC : stC.module.length = stB.module.length := by
      have h := appendBasicBlock_module_length fi nmIfCont stB; rw [hC] at h; exact h
    dsimp only
    refine LenInv.trans_start stC (by rw [lC, lB, lA]) ?_
    refine LenInv.tbind (emitInstr_inv ..) (fun _ stD _ => ?_)
    refine LenInv.trans_start (positionAtEnd fi tbb stD) rfl ?_
    refine LenInv.tbind (ihThen tbb stD) (fun then_val stT _ => ?_)
    refine LenInv.tbind (emitInstr_inv ..) (fun _ stU _ => ?_)
    cases hI : stU.insertAt with
    | none => exact panic_inv ..
    | some thenExit =>
      cases eb with
      | none => exact panic_inv ..
      | some else_b =>
        refine LenInv.trans_start (positionAtEnd fi ebb stU) rfl ?_
        refine LenInv.tbind (ihElse ebb stU) (fun else_val stE _ => ?_)
        cases hJ : stE.insertAt with
        | none => exact panic_inv ..
        | some elseExit =>
          refine LenInv.tbind (emitInstr_inv ..) (fun _ stF _ => ?_)
          refine LenInv.trans_start (positionAtEnd fi cbb stF) rfl ?_
          exact emitValue_inv ..

theorem allocParams_inv : ∀ (params : List Token) (sig i : Nat) (st : TState),
    LenInv st (allocParams sig params i st) := by
  intro params
  induction params with
  | nil => intro sig i st; exact pure_inv ..
  | cons t rest ih =>
    intro sig i st
    cases t
    case Ident nm =>
      simp only [allocParams]
      refine LenInv.tbind (create_stack_alloc_inv ..) (fun ptr st1 _ => ?_)
      refine LenInv.tbind (emitInstr_inv ..) (fun u st2 _ => ?_)
      exact LenInv.trans_start _ rfl (ih sig (i + 1) _)
    all_goals (simp only [allocParams]; exact panic_inv ..)

theorem identNames_error : ∀ (ps : List Token) (e : TErr),
    identNames ps = .error e → e = .panic msgNotArgIdent := by
  intro ps
  induction ps with
  | nil => intro e h; simp [identNames] at h
  | cons t rest ih =>
    intro e h
    cases t
    case Ident nm =>
      simp only [identNames] at h
      cases hr : identNames rest with
      | ok l => rw [hr] at h; simp [Except.map] at h
      | error e2 => rw [hr] at h; simp [Except.map] at h; rw [← h]; exact ih e2 hr
    all_goals (simp only [identNames] at h; injection h with h2; exact h2.symm)

end Mai

namespace Mai

/-! ## Claim theorems -/

/-- Claim C1 (amended): when lowering a function statement fails with a
lowering-semantic diagnostic, the caller does receive the diagnostic, but
the partially built function is NOT discarded unless the diagnostic is the
verification-failure message: for any other diagnostic (unresolved
variable, unsupported operator, untranslatable expression) the module has
grown by the already-registered function; only the "Invalid generated
function" path deletes it. -/
theorem translate_diag_keeps_function :
    ∀ (s : Stmt) (m : List IRFunction) (d : String) (res : TState),
      Translator.translate m s = (.error (.diag d), res) →
      (d ≠ msgInvalidGenerated → res.module.length = m.length + 1) ∧
      (d = msgInvalidGenerated → res.module.length = m.length) := by
  intro s m d res h
  unfold Translator.translate at h
  cases s
  case Function name params body =>
    cases name
    case Ident fn_name =>
      cases hin : identNames params with
      | error e =>
        simp only [translate_function, translate_function_sig, hin, tbind] at h
        have h1 := (pairEq h).1
        have he := identNames_error params e hin
        subst he
        simp at h1
      | ok names =>
        simp only [translate_function, translate_function_sig, hin, tbind, addFunction] at h
        cases body with
        | nil => exact absurd (pairEq h).1 (by simp)
        | cons b rest =>
          rcases hE : appendBasicBlock m.length nmEntry
              { module := m ++ [⟨fn_name, names, []⟩], fnValueOpt := none,
                insertAt := none, vars := [], nextId := 0 } with ⟨entry, st2⟩
          have lE : st2.module.length = m.length + 1 := by
            have hh := appendBasicBlock_module_length m.length nmEntry
              { module := m ++ [⟨fn_name, names, []⟩], fnValueOpt := none,
                insertAt := none, vars := [], nextId := 0 }
            rw [hE] at hh
            simpa using hh
          rw [hE] at h
          dsimp only at h
          rcases hP : allocParams m.length params 0
              { positionAtEnd m.length entry st2 with fnValueOpt := some m.length } with ⟨rp, st5⟩
          have hPinv := allocParams_inv params m.length 0
              { positionAtEnd m.length entry st2 with fnValueOpt := some m.length }
          rw [hP] at hPinv
          have l5 : st5.module.length = m.length + 1 := by
            have hh := hPinv.1
            simpa [positionAtEnd, lE] using hh
          rw [hP] at h
          cases rp with
          | error e =>
            simp only [tbind] at h
            have h1 := (pairEq h).1
            have h2 := (pairEq h).2
            cases e with
            | panic msg => simp at h1
            | diag d2 =>
              have h1c : d2 = d := by
                injection h1 with h1b
                injection h1b with h1c
              subst h1c
              refine ⟨fun _ => by rw [← h2]; exact l5, fun hinv => absurd hinv (hPinv.2 d2 rfl)⟩
          | ok u =>
            simp only [tbind] at h
            rcases hS : translate_stmt b st5 with ⟨rs, st6⟩
            have hSinv := translate_stmt_inv b st5
            rw [hS] at hSinv
            have l6 : st6.module.length = m.length + 1 := hSinv.1.trans l5
            rw [hS] at h
            cases rs with
            | error e =>
              simp only [tbind] at h
              have h1 := (pairEq h).1
              have h2 := (pairEq h).2
              cases e with
              | panic msg => simp at h1
              | diag d2 =>
                have h1c : d2 = d := by
                  injection h1 with h1b
                  injection h1b with h1c
                subst h1c
                refine ⟨fun _ => by rw [← h2]; exact l6, fun hinv => absurd hinv (hSinv.2 d2 rfl)⟩
            | ok bodyVal =>
              simp only [tbind] at h
              rcases hR : emitInstr (.ret bodyVal) st6 with ⟨rr, st7⟩
              have hRinv := emitInstr_inv (.ret bodyVal) st6
              rw [hR] at hRinv
              have l7 : st7.module.length = m.length + 1 := hRinv.1.trans l6
              rw [hR] at h
              cases rr with
              | error e =>
                simp only [tbind] at h
                have h1 := (pairEq h).1
                have h2 := (pairEq h).2
                cases e with
                | panic msg => simp at h1
                | diag d2 =>
                  have h1c : d2 = d := by
                    injection h1 with h1b
                    injection h1b with h1c
                  subst h1c
                  refine ⟨fun _ => by rw [← h2]; exact l7, fun hinv => absurd hinv (hRinv.2 d2 rfl)⟩
              | ok u2 =>
                simp only [tbind] at h
                cases hG : st7.module.get? m.length with
                | none => rw [hG] at h; exact absurd (pairEq h).1 (by simp)
                | some f =>
                  rw [hG] at h
                  dsimp only at h
                  cases hv : verifyFunction f with
                  | true =>
                    rw [hv] at h
                    simp only [if_true] at h
                    exact absurd (pairEq h).1 (by simp)
                  | false =>
                    rw [hv] at h
                    simp only [Bool.false_eq_true, if_false] at h
                    have h1 := (pairEq h).1
                    have h2 := (pairEq h).2
                    have h1c : msgInvalidGenerated = d := by
                      injection h1 with h1b
                      injection h1b with h1c
                    constructor
                    · intro hne; exact absurd h1c.symm hne
                    · intro _
                      rw [← h2]
                      have hlt : m.length < st7.module.length := by omega
                      have hle := List.length_eraseIdx_of_lt hlt
                      simp only []
                      omega
    all_goals
      simp only [translate_function, translate_function_sig, tbind] at h
      exact absurd (pairEq h).1 (by simp)
  all_goals
    simp only [translate_function, tbind] at h
    exact absurd (pairEq h).1 (by simp)

/-- Claim C1, counterexample to the claim as stated: lowering
`fun f() { y; }` into an empty module fails with the unresolved-variable
diagnostic, yet a function named `f` IS left registered in the module —
the partially built function is not discarded. -/
theorem translate_body_error_leaves_function_registered :
    Translator.translate [] cFunF = (.error (.diag msgVarNotFound), stFailF) ∧
    stFailF.module.map IRFunction.name = ["f"] ∧
    stFailF.module ≠ [] := by
  refine ⟨?_, rfl, by simp [stFailF]⟩
  simp [Translator.translate, translate_function, translate_function_sig, identNames,
    addFunction, appendBasicBlock, positionAtEnd, allocParams, translate_stmt,
    translate_expr, lookupVar, tbind, cFunF, stFailF, modifyFun, modifyBlock, nmEntry]

/-- Claim C1, witness for the amended theorem: at the concrete failing
program `cFunF` over the empty module, the hypotheses hold and the module
retains one function. -/
theorem translate_diag_keeps_function_witness :
    stFailF.module.length = ([] : List IRFunction).length + 1 :=
  (translate_diag_keeps_function cFunF [] msgVarNotFound stFailF
    (by simp [Translator.translate, translate_function, translate_function_sig, identNames,
      addFunction, appendBasicBlock, positionAtEnd, allocParams, translate_stmt,
      translate_expr, lookupVar, tbind, cFunF, stFailF, modifyFun, modifyBlock, nmEntry])).1
    (by decide)

end Mai

namespace Mai

theorem isErr_tbind {α β : Type} {r : TRes α} {f : α → TState → TRes β}
    (h : ∀ a st', r = (.ok a, st') → isErr (f a st')) : isErr (tbind r f) := by
  rcases r with ⟨rv, st'⟩
  cases rv with
  | error e => exact ⟨e, st', by simp [Mai.tbind]⟩
  | ok a => simpa only [Mai.tbind] using h a st' rfl

/-- Claim C6: lowering a `Block` statement lowers exactly its first
statement: the results agree as values AND as states, so no instruction
is ever emitted for any statement after the first.  Concretely, lowering
the block `{ 1; nope; }` succeeds with the literal's value and leaves
the state untouched, although its second statement (an unresolved
variable) would fail if it were lowered. -/
theorem block_lowers_first_stmt_only :
    (∀ (s : Stmt) (rest : List Stmt) (st : TState),
      translate_stmt (.Block (s :: rest)) st = translate_stmt s st) ∧
    translate_stmt (.Block [.Expr (.Literal "1"), .Expr (.Variable (.Ident "nope"))]) stIf0 =
      (.ok (.constText "1"), stIf0) ∧
    isErr (translate_stmt (.Expr (.Variable (.Ident "nope"))) stIf0) := by
  refine ⟨fun s rest st => by simp only [translate_stmt], ?_, ?_⟩
  · simp [translate_stmt, translate_expr, rustF64ParseOk, mantissaOk, splitDigits,
      isDigitChar, expOk]
  · refine ⟨.diag msgVarNotFound, stIf0, ?_⟩
    simp [translate_stmt, translate_expr, lookupVar, stIf0]

/-- Claim C7: conditional lowering with the else branch absent NEVER
succeeds — the source unconditionally `unwrap`s the optional else branch,
so once the condition and then-branch lower, it panics rather than
returning a lowering diagnostic.  Concretely, lowering `if (1) 2;` from a
well-formed context panics with the unwrap message, even though the
parser happily produces an `If` with no else branch (third conjunct). -/
theorem conditional_missing_else_never_succeeds :
    (∀ (c : Expr) (t : Stmt) (st : TState),
      ∃ (err : TErr) (st2 : TState), translateConditional c t none st = (.error err, st2)) ∧
    translateConditional (.Literal "1") (.Expr (.Literal "2")) none stIf0 =
      (.error (.panic msgUnwrapNone), stIf7) ∧
    Parser.if_statement 50 ⟨ifToks, 0⟩ =
      .ok (.If (.Literal "1") (.Expr (.Variable (.Ident "x"))) none, ⟨ifToks, 5⟩) := by
  refine ⟨?_, ?_, rfl⟩
  · intro c t st
    show isErr _
    simp only [translateConditional]
    cases hfn : st.fnValueOpt with
    | none => exact ⟨_, _, rfl⟩
    | some parent =>
      refine isErr_tbind (fun condv st1 _ => ?_)
      refine isErr_tbind (fun condb st2 _ => ?_)
      rcases hA : appendBasicBlock parent nmThen st2 with ⟨tbb, stA⟩
      rcases hB : appendBasicBlock parent nmElse stA with ⟨ebb, stB⟩
      rcases hC : appendBasicBlock parent nmIfCont stB with ⟨cbb, stC⟩
      dsimp only
      refine isErr_tbind (fun u stD _ => ?_)
      refine isErr_tbind (fun tv stT _ => ?_)
      refine isErr_tbind (fun u2 stU _ => ?_)
      cases hI : stU.insertAt with
      | none => exact ⟨_, _, rfl⟩
      | some thenExit => exact ⟨_, _, rfl⟩
  · simp [translateConditional, translate_stmt, translate_expr, tbind, emitValue, emitInstr,
      appendBasicBlock, positionAtEnd, modifyFun, modifyBlock, stIf0, stIf7,
      rustF64ParseOk, mantissaOk, splitDigits, isDigitChar, expOk,
      nmThen, nmElse, nmIfCont, nmIfCond, nmIfTmp]

end Mai

namespace Mai

theorem modifyBlock_insertAt (fi bi : Nat) (g : BBlock → BBlock) (st : TState) :
    (modifyBlock fi bi g st).insertAt = st.insertAt := by
  unfold modifyBlock modifyFun
  cases st.module.get? fi with
  | none => rfl
  | some f =>
    cases f.blocks.get? bi <;> rfl

theorem emitValue_ok {mk : Nat → Instr} {st : TState} {v : Value} {st' : TState}
    (h : emitValue mk st = (.ok v, st')) :
    v = .instr st.nextId ∧
    emitInstr (mk st.nextId) { st with nextId := st.nextId + 1 } = (.ok (), st') := by
  unfold emitValue at h
  dsimp only at h
  split at h
  next a st1 heq =>
    have h1 := (pairEq h).1
    have h2 := (pairEq h).2
    injection h1 with h1b
    subst h2
    refine ⟨h1b.symm, ?_⟩
    rw [heq]
  next e st1 heq =>
    exact absurd (pairEq h).1 (by simp)

theorem emitInstr_ok {i : Instr} {st st' : TState} {fi bi : Nat}
    (h : emitInstr i st = (.ok (), st')) (hpos : st.insertAt = some (fi, bi)) :
    st'.insertAt = some (fi, bi) ∧
    blockInstrs st' fi bi = blockInstrs st fi bi ++ [i] := by
  unfold emitInstr at h
  rw [hpos] at h
  dsimp only at h
  cases hm : st.module.get? fi with
  | none =>
    rw [hm] at h
    exact absurd (pairEq h).1 (by simp)
  | some f =>
    rw [hm] at h
    dsimp only at h
    cases hb : f.blocks.get? bi with
    | none =>
      rw [hb] at h
      exact absurd (pairEq h).1 (by simp)
    | some b =>
      rw [hb] at h
      dsimp only at h
      have h2 := (pairEq h).2
      subst h2
      obtain ⟨hfl, _⟩ := List.get?_eq_some.mp hm
      obtain ⟨hbl, _⟩ := List.get?_eq_some.mp hb
      constructor
      · rw [modifyBlock_insertAt]; exact hpos
      · unfold blockInstrs modifyBlock modifyFun
        rw [hm]
        dsimp only
        rw [hb]
        dsimp only
        rw [List.get?_eq_getElem?, List.getElem?_set_self hfl]
        dsimp only
        rw [List.get?_eq_getElem?, List.getElem?_set_self hbl]

/-- Claim C5: when an `If` statement with both branches present lowers
successfully, the run decomposes exactly as the source prescribes: the
condition value is compared `ONE` (ordered not-equal) against the zero
constant; a conditional branch on that comparison targets the three
freshly appended `then`/`else`/`ifcont` blocks; the then branch and the
else branch are each lowered and their exit blocks (the builder's
insertion block at the ends of the two branch lowerings) are recorded;
and the phi emitted at the merge block carries exactly two incoming
entries — the then value tagged with the then-exit block and the else
value tagged with the else-exit block.  The phi is the statement's value,
and it is the last instruction of the merge block in the final state. -/
theorem if_phi_two_incoming :
    ∀ (c : Expr) (t e : Stmt) (st : TState) (v : Value) (st' : TState),
      translateConditional c t (some e) st = (.ok v, st') →
      ∃ (parent : Nat) (condv condb : Value) (st1 st2 : TState),
        st.fnValueOpt = some parent ∧
        translate_expr c st = (.ok condv, st1) ∧
        emitValue (fun i => .fcmp i .ONE condv .constZero nmIfCond) st1 = (.ok condb, st2) ∧
        (let (then_bb, stA) := appendBasicBlock parent nmThen st2
         let (else_bb, stB) := appendBasicBlock parent nmElse stA
         let (cont_bb, stC) := appendBasicBlock parent nmIfCont stB
         ∃ (stD stT stU stE stF : TState) (then_val else_val : Value)
           (thenExit elseExit : Nat × Nat) (pid : Nat),
           emitInstr (.condBr condb (parent, then_bb) (parent, else_bb)) stC = (.ok (), stD) ∧
           translate_stmt t (positionAtEnd parent then_bb stD) = (.ok then_val, stT) ∧
           emitInstr (.br (parent, cont_bb)) stT = (.ok (), stU) ∧
           stU.insertAt = some thenExit ∧
           translate_stmt e (positionAtEnd parent else_bb stU) = (.ok else_val, stE) ∧
           stE.insertAt = some elseExit ∧
           emitInstr (.br (parent, cont_bb)) stE = (.ok (), stF) ∧
           emitValue (fun i => .phi i nmIfTmp [(then_val, thenExit), (else_val, elseExit)])
             (positionAtEnd parent cont_bb stF) = (.ok v, st') ∧
           v = .instr pid ∧
           st'.insertAt = some (parent, cont_bb) ∧
           (blockInstrs st' parent cont_bb).getLast? =
             some (.phi pid nmIfTmp [(then_val, thenExit), (else_val, elseExit)])) := by
  intro c t e st v st' h
  simp only [translateConditional] at h
  cases hfn : st.fnValueOpt with
  | none => rw [hfn] at h; exact absurd (pairEq h).1 (by simp)
  | some parent =>
    rw [hfn] at h
    dsimp only at h
    rcases hc : translate_expr c st with ⟨rc, st1⟩
    rw [hc] at h
    cases rc with
    | error e1 => exact absurd (pairEq (by simpa only [tbind] using h)).1 (by simp)
    | ok condv =>
      simp only [tbind] at h
      rcases hv : emitValue (fun i => .fcmp i .ONE condv .constZero nmIfCond) st1 with ⟨rv, st2⟩
      rw [hv] at h
      cases rv with
      | error e2 => exact absurd (pairEq (by simpa only [tbind] using h)).1 (by simp)
      | ok condb =>
        simp only [tbind] at h
        rcases hA : appendBasicBlock parent nmThen st2 with ⟨tbb, stA⟩
        rw [hA] at h
        rcases hB : appendBasicBlock parent nmElse stA with ⟨ebb, stB⟩
        rw [hB] at h
        rcases hC : appendBasicBlock parent nmIfCont stB with ⟨cbb, stC⟩
        rw [hC] at h
        dsimp only at h
        rcases hD : emitInstr (.condBr condb (parent, tbb) (parent, ebb)) stC with ⟨rD, stD⟩
        rw [hD] at h
        cases rD with
        | error e3 => exact absurd (pairEq (by simpa only [tbind] using h)).1 (by simp)
        | ok uD =>
          simp only [tbind] at h
          rcases hT : translate_stmt t (positionAtEnd parent tbb stD) with ⟨rT, stT⟩
          rw [hT] at h
          cases rT with
          | error e4 => exact absurd (pairEq (by simpa only [tbind] using h)).1 (by simp)
          | ok then_val =>
            simp only [tbind] at h
            rcases hU : emitInstr (.br (parent, cbb)) stT with ⟨rU, stU⟩
            rw [hU] at h
            cases rU with
            | error e5 => exact absurd (pairEq (by simpa only [tbind] using h)).1 (by simp)
            | ok uU =>
              simp only [tbind] at h
              cases hI : stU.insertAt with
              | none => rw [hI] at h; exact absurd (pairEq h).1 (by simp)
              | some thenExit =>
                rw [hI] at h
                dsimp only at h
                rcases hE : translate_stmt e (positionAtEnd parent ebb stU) with ⟨rE, stE⟩
                rw [hE] at h
                cases rE with
                | error e6 => exact absurd (pairEq (by simpa only [tbind] using h)).1 (by simp)
                | ok else_val =>
                  simp only [tbind] at h
                  cases hJ : stE.insertAt with
                  | none => rw [hJ] at h; exact absurd (pairEq h).1 (by simp)
                  | some elseExit =>
                    rw [hJ] at h
                    dsimp only at h
                    rcases hF : emitInstr (.br (parent, cbb)) stE with ⟨rF, stF⟩
                    rw [hF] at h
                    cases rF with
                    | error e7 => exact absurd (pairEq (by simpa only [tbind] using h)).1 (by simp)
                    | ok uF =>
                      simp only [tbind] at h
                      cases uD; cases uU; cases uF
                      have hph := emitValue_ok h
                      have hpos2 : ({ positionAtEnd parent cbb stF with
                          nextId := (positionAtEnd parent cbb stF).nextId + 1 }).insertAt
                          = some (parent, cbb) := rfl
                      have hemit := emitInstr_ok hph.2 hpos2
                      refine ⟨parent, condv, condb, st1, st2, rfl, rfl, hv, ?_⟩
                      simp only [hA]
                      simp only [hB]
                      simp only [hC]
                      refine ⟨stD, stT, stU, stE, stF, then_val, else_val, thenExit, elseExit,
                        (positionAtEnd parent cbb stF).nextId, hD, hT, hU, hI, hE, hJ, hF, h,
                        hph.1, hemit.1, ?_⟩
                      rw [hemit.2, List.getLast?_concat]

end Mai

namespace Mai

/-- Claim C5, witness: lowering `if (1) 2; else 3;` from the concrete
context `stIf0` succeeds with the phi value, and the decomposition of the
run holds there. -/
theorem if_phi_two_incoming_witness :
    ∃ (parent : Nat) (condv condb : Value) (st1 st2 : TState),
      stIf0.fnValueOpt = some parent ∧
      translate_expr (.Literal "1") stIf0 = (.ok condv, st1) ∧
      emitValue (fun i => .fcmp i .ONE condv .constZero nmIfCond) st1 = (.ok condb, st2) ∧
      (let (then_bb, stA) := appendBasicBlock parent nmThen st2
       let (else_bb, stB) := appendBasicBlock parent nmElse stA
       let (cont_bb, stC) := appendBasicBlock parent nmIfCont stB
       ∃ (stD stT stU stE stF : TState) (then_val else_val : Value)
         (thenExit elseExit : Nat × Nat) (pid : Nat),
         emitInstr (.condBr condb (parent, then_bb) (parent, else_bb)) stC = (.ok (), stD) ∧
         translate_stmt (.Expr (.Literal "2")) (positionAtEnd parent then_bb stD) =
           (.ok then_val, stT) ∧
         emitInstr (.br (parent, cont_bb)) stT = (.ok (), stU) ∧
         stU.insertAt = some thenExit ∧
         translate_stmt (.Expr (.Literal "3")) (positionAtEnd parent else_bb stU) =
           (.ok else_val, stE) ∧
         stE.insertAt = some elseExit ∧
         emitInstr (.br (parent, cont_bb)) stE = (.ok (), stF) ∧
         emitValue (fun i => .phi i nmIfTmp [(then_val, thenExit), (else_val, elseExit)])
           (positionAtEnd parent cont_bb stF) = (.ok (.instr 1), stIf5) ∧
         (.instr 1 : Value) = .instr pid ∧
         stIf5.insertAt = some (parent, cont_bb) ∧
         (blockInstrs stIf5 parent cont_bb).getLast? =
           some (.phi pid nmIfTmp [(then_val, thenExit), (else_val, elseExit)])) :=
  if_phi_two_incoming (.Literal "1") (.Expr (.Literal "2")) (.Expr (.Literal "3")) stIf0
    (.instr 1) stIf5
    (by simp [translateConditional, translate_stmt, translate_expr, tbind, emitValue,
      emitInstr, appendBasicBlock, positionAtEnd, modifyFun, modifyBlock, stIf0, stIf5,
      rustF64ParseOk, mantissaOk, splitDigits, isDigitChar, expOk,
      nmThen, nmElse, nmIfCont, nmIfCond, nmIfTmp])

end Mai

namespace Mai

theorem char_eq_of_toNat_eq {c d : Char} (h : c.toNat = d.toNat) : c = d :=
  Char.ext (UInt32.ext h)

theorem scanLoop_all_cont : ∀ (cont : Char → Bool) (cs : List Char),
    cs.all cont = true → scanLoop cont cs = none := by
  intro cont cs
  induction cs with
  | nil => intro _; rfl
  | cons c cs ih =>
    intro h
    simp only [List.all_cons, Bool.and_eq_true] at h
    simp [scanLoop, h.1, ih h.2]

/-- Claim C4: when the input ends while the lexer is still scanning the
continuation characters of a number or identifier, `lex` returns the EOF
sentinel instead of the token, with the characters consumed; so the final
`Number`/`Ident` of an input without a trailing delimiter is never
produced — lexing the one-character input `x` yields no token at all,
while `y = x` loses only its final identifier. -/
theorem lex_eof_swallows_final_token :
    (∀ (c : Char) (cs : List Char) (n : Nat),
      isIdentStartChar c = true → cs.all isIdentContChar = true →
      lexOne ⟨c :: cs, n⟩ = .ok (.EOF, ⟨[], n⟩)) ∧
    (∀ (c : Char) (cs : List Char) (n : Nat),
      isNumStartChar c = true → cs.all isNumContChar = true →
      lexOne ⟨c :: cs, n⟩ = .ok (.EOF, ⟨[], n⟩)) ∧
    lexAll "x" = [] ∧
    lexAll "y = x" = [.Ident "y", .Eq] := by
  refine ⟨?_, ?_, rfl, rfl⟩
  · intro c cs n hstart hall
    have hstartP := hstart
    simp only [isIdentStartChar, Bool.or_eq_true, Bool.and_eq_true, decide_eq_true_eq,
      beq_iff_eq] at hstartP
    have hws : rustIsWhitespace c = false := by
      rw [Bool.eq_false_iff]
      intro hx
      simp only [rustIsWhitespace, Bool.or_eq_true, Bool.and_eq_true, decide_eq_true_eq,
        beq_iff_eq] at hx
      omega
    have h40 : (c.toNat == 40) = false := by simp only [beq_eq_false_iff_ne, ne_eq]; omega
    have h41 : (c.toNat == 41) = false := by simp only [beq_eq_false_iff_ne, ne_eq]; omega
    have h44 : (c.toNat == 44) = false := by simp only [beq_eq_false_iff_ne, ne_eq]; omega
    have h59 : (c.toNat == 59) = false := by simp only [beq_eq_false_iff_ne, ne_eq]; omega
    have h123 : (c.toNat == 123) = false := by simp only [beq_eq_false_iff_ne, ne_eq]; omega
    have h125 : (c.toNat == 125) = false := by simp only [beq_eq_false_iff_ne, ne_eq]; omega
    have hnum : isNumStartChar c = false := by
      rw [Bool.eq_false_iff]
      intro hx
      simp only [isNumStartChar, Bool.or_eq_true, Bool.and_eq_true, decide_eq_true_eq,
        beq_iff_eq] at hx
      omega
    have hscan := scanLoop_all_cont isIdentContChar cs hall
    simp [lexOne, skipWs, hws, h40, h41, h44, h59, h123, h125, hnum, hstart, hscan]
  · intro c cs n hstart hall
    have hstartP := hstart
    simp only [isNumStartChar, Bool.or_eq_true, Bool.and_eq_true, decide_eq_true_eq,
      beq_iff_eq] at hstartP
    have hws : rustIsWhitespace c = false := by
      rw [Bool.eq_false_iff]
      intro hx
      simp only [rustIsWhitespace, Bool.or_eq_true, Bool.and_eq_true, decide_eq_true_eq,
        beq_iff_eq] at hx
      omega
    have h40 : (c.toNat == 40) = false := by simp only [beq_eq_false_iff_ne, ne_eq]; omega
    have h41 : (c.toNat == 41) = false := by simp only [beq_eq_false_iff_ne, ne_eq]; omega
    have h44 : (c.toNat == 44) = false := by simp only [beq_eq_false_iff_ne, ne_eq]; omega
    have h59 : (c.toNat == 59) = false := by simp only [beq_eq_false_iff_ne, ne_eq]; omega
    have h123 : (c.toNat == 123) = false := by simp only [beq_eq_false_iff_ne, ne_eq]; omega
    have h125 : (c.toNat == 125) = false := by simp only [beq_eq_false_iff_ne, ne_eq]; omega
    have hscan := scanLoop_all_cont isNumContChar cs hall
    simp [lexOne, skipWs, hws, h40, h41, h44, h59, h123, h125, hstart, hscan]

/-- Claim C4, witness: on the one-character identifier input `x` (and the
one-character number input `1`) the hypotheses hold and `lex` returns
EOF. -/
theorem lex_eof_swallows_final_token_witness :
    lexOne ⟨['x'], 0⟩ = .ok (.EOF, ⟨[], 0⟩) ∧
    lexOne ⟨['1'], 0⟩ = .ok (.EOF, ⟨[], 0⟩) :=
  ⟨lex_eof_swallows_final_token.1 'x' [] 0 (by decide) (by decide),
   (lex_eof_swallows_final_token.2).1 '1' [] 0 (by decide) (by decide)⟩

/-- Claim C8: on `!`, `=`, `<`, `>` the lexer peeks one character: a
following `=` is consumed and exactly one two-character token comes out
(with the cursor advanced past both characters); any other following
character is left unconsumed and the one-character token comes out. -/
theorem two_char_operator_lookahead :
    (∀ (rest : List Char) (n : Nat),
      lexOne ⟨'!' :: '=' :: rest, n⟩ = .ok (.Neq, ⟨rest, n + 2⟩) ∧
      lexOne ⟨'=' :: '=' :: rest, n⟩ = .ok (.Eqq, ⟨rest, n + 2⟩) ∧
      lexOne ⟨'<' :: '=' :: rest, n⟩ = .ok (.Leq, ⟨rest, n + 2⟩) ∧
      lexOne ⟨'>' :: '=' :: rest, n⟩ = .ok (.Geq, ⟨rest, n + 2⟩)) ∧
    (∀ (c : Char) (rest : List Char) (n : Nat), c ≠ '=' →
      lexOne ⟨'!' :: c :: rest, n⟩ = .ok (.Bang, ⟨c :: rest, n + 1⟩) ∧
      lexOne ⟨'=' :: c :: rest, n⟩ = .ok (.Eq, ⟨c :: rest, n + 1⟩) ∧
      lexOne ⟨'<' :: c :: rest, n⟩ = .ok (.Less, ⟨c :: rest, n + 1⟩) ∧
      lexOne ⟨'>' :: c :: rest, n⟩ = .ok (.Greater, ⟨c :: rest, n + 1⟩)) := by
  constructor
  · intro rest n
    exact ⟨rfl, rfl, rfl, rfl⟩
  · intro c rest n hne
    have hc : (c.toNat == 61) = false := by
      simp only [beq_eq_false_iff_ne, ne_eq]
      intro hx
      exact hne (char_eq_of_toNat_eq (by rw [hx]; rfl))
    refine ⟨?_, ?_, ?_, ?_⟩
    all_goals simp [lexOne, skipWs, rustIsWhitespace, isNumStartChar, isIdentStartChar,
      peekNextOtherwise, hc]

/-- Claim C8, witness: `!=` lexes to one `Neq` token consuming both
characters, and `!x` lexes to `Bang` leaving `x` unconsumed. -/
theorem two_char_operator_lookahead_witness :
    lexOne ⟨'!' :: '=' :: [], 0⟩ = .ok (.Neq, ⟨[], 0 + 2⟩) ∧
    lexOne ⟨'!' :: 'x' :: [], 0⟩ = .ok (.Bang, ⟨['x'], 0 + 1⟩) :=
  ⟨(two_char_operator_lookahead.1 [] 0).1,
   (two_char_operator_lookahead.2 'x' [] 0 (by decide)).1⟩

/-- Claim C9: a character that starts no recognized token form makes
`lex` fail with `UnknownToken` carrying that character's text, and the
token iterator then yields nothing, so token production stops at that
point; concretely `a $ b` lexes to just `Ident a`. -/
theorem unknown_char_stops_lexing :
    (∀ (c : Char) (rest : List Char) (n : Nat), isUnknownStartChar c = true →
      lexOne ⟨c :: rest, n⟩ = .error (.UnknownToken (String.mk [c]))) ∧
    (∀ (st : LexState) (e : LexingError), lexOne st = .error e → lexNext st = none) ∧
    lexAll "a $ b" = [.Ident "a"] := by
  refine ⟨?_, ?_, rfl⟩
  · intro c rest n h
    simp only [isUnknownStartChar, Bool.and_eq_true, Bool.not_eq_true'] at h
    obtain ⟨⟨⟨⟨⟨⟨⟨⟨⟨⟨⟨⟨⟨⟨⟨⟨hws, h40⟩, h41⟩, h44⟩, h59⟩, h123⟩, h125⟩, hnum⟩, hid⟩,
      h43⟩, h45⟩, h42⟩, h47⟩, h33⟩, h61⟩, h60⟩, h62⟩ := h
    simp [lexOne, skipWs, hws, h40, h41, h44, h59, h123, h125, hnum, hid,
      h43, h45, h42, h47, h33, h61, h60, h62]
  · intro st e h
    simp [lexNext, h]

/-- Claim C9, witness: `#` starts no token form; `lex` fails with
`UnknownToken "#"` on it and the iterator yields nothing there. -/
theorem unknown_char_stops_lexing_witness :
    lexOne ⟨['#'], 0⟩ = .error (.UnknownToken (String.mk ['#'])) ∧
    lexNext ⟨['#'], 0⟩ = none :=
  ⟨unknown_char_stops_lexing.1 '#' [] 0 (by decide),
   (unknown_char_stops_lexing.2).1 ⟨['#'], 0⟩ (.UnknownToken (String.mk ['#']))
     (unknown_char_stops_lexing.1 '#' [] 0 (by decide))⟩

/-- Claim C2: evaluating the lexer at the claim's keyword spellings.  The
spellings `fun`, `for`, `while`, `or`, `and`, `return` are lexed as
`Ident` tokens — the keyword table of `lexer.rs` does not contain them and
`token.rs` declares no variants for them, even though `parser.rs` matches
on `Token::Fun`, `Token::For`, `Token::While`, `Token::Or`, `Token::And`
and `Token::Return` — while the actual table covers exactly `var`, `if`,
`else`, `false`, `true` and the sentinel `wagmi`; every other identifier
spelling maps to `Ident` carrying the spelling itself. -/
theorem lexer_keyword_table_incomplete :
    lexAll "fun for while or and return " =
      [.Ident "fun", .Ident "for", .Ident "while", .Ident "or", .Ident "and", .Ident "return"] ∧
    lexAll "var if else false true wagmi " =
      [.Var, .If, .Else, .False, .True, .Wagmi] ∧
    (∀ s : String, s ≠ "var" → s ≠ "if" → s ≠ "else" → s ≠ "false" → s ≠ "true" →
      s ≠ "wagmi" → keywordOf s = .Ident s) := by
  refine ⟨rfl, rfl, ?_⟩
  intro s h1 h2 h3 h4 h5 h6
  unfold keywordOf
  rw [if_neg h1, if_neg h2, if_neg h3, if_neg h4, if_neg h5, if_neg h6]

/-- Claim C3: the parse-time desugaring of `for`: whenever a condition
expression was present, the produced `While`'s condition is the constant
`true` literal — the user-supplied condition is discarded — while the
increment (if present) is appended as a trailing statement of a block
wrapping the body and the initializer (if present) is hoisted into an
enclosing block before the `While`.  Concretely, `for (;1;) x;` parses to
`While (Literal "true") (Expr (Variable x))`. -/
theorem for_desugar_overwrites_condition :
    (∀ (ini : Option Stmt) (inc : Option Expr) (body : Stmt) (cond : Expr),
      Parser.assembleFor ini (some cond) inc body =
        .ok (let body1 := match inc with
              | some i => Stmt.Block [body, Stmt.Expr i]
              | none => body
             let w := Stmt.While (Expr.Literal strTrue) body1
             match ini with
             | some i0 => Stmt.Block [i0, w]
             | none => w)) ∧
    Parser.for_statement 50 ⟨forToks, 0⟩ =
      .ok (.While (.Literal strTrue) (.Expr (.Variable (.Ident "x"))), ⟨forToks, 7⟩) := by
  constructor
  · intro ini inc body cond
    cases ini <;> cases inc <;> rfl
  · rfl

/-- Claim C10: multiplicative operators bind tighter than additive ones:
for every identifier triple, the token sequence of `a + b * c` parses to
an addition whose right child is the multiplication of the second and
third operands. -/
theorem mul_binds_tighter_than_add :
    ∀ (a b c : String),
      Parser.expression 30 ⟨abcToks a b c, 0⟩ =
        .ok (.BinaryExpr .Plus (.Variable (.Ident a))
              (.BinaryExpr .Times (.Variable (.Ident b)) (.Variable (.Ident c))),
             ⟨abcToks a b c, 5⟩) := by
  intro a b c
  rfl

end Mai
